import Mathlib

/-!
Verification development for the AIDetective forensics-investigation frontend.

The embedding translates the three source files:
  * `src/services/forensicsApi.ts` (query parsing, pipeline ids, stage-runner
    placeholders, `ForensicsWebSocket`),
  * `src/hooks/useForensicsInvestigation.ts` (the `Pipeline`/`Investigation`
    state, `executePipelines`, `toggleInvestigationStatus`, `stopInvestigation`,
    `getInvestigationSummary`),
  * `src/App.tsx` (the hardcoded initial pipeline list and the entry point
    `startInvestigationWithPipelines`).

Numbers are modelled with `Rat` (JS numbers; no overflow-relevant arithmetic
occurs), JS `Date` values with rational timestamps, and the asynchronous
executor with an explicit event trace over an explicit state.
-/

/-! ### Data model (hooks/useForensicsInvestigation.ts, services/forensicsApi.ts) -/

/-- Pipeline status: 'pending' | 'running' | 'completed' | 'error'. -/
inductive PStatus where
  | pending
  | running
  | completed
  | error
deriving DecidableEq, Inhabited

/-- Investigation status: 'active' | 'completed' | 'paused' | 'error'. -/
inductive InvStatus where
  | active
  | completed
  | paused
  | error
deriving DecidableEq, Inhabited

/-- `PipelineResult.metadata` from forensicsApi.ts. -/
structure ResultMetadata where
  executionTime : Rat
  confidence : Rat
  sources : List String
deriving DecidableEq, Inhabited

/-- `PipelineResult` from forensicsApi.ts. `data : any[]` holds records the
core never inspects beyond their count, modelled as an opaque-element list. -/
structure PipelineResult where
  pipelineId : String
  status : String
  data : List Unit
  metadata : ResultMetadata
  errors : Option (List String) := none
deriving DecidableEq, Inhabited

/-- `Pipeline` from useForensicsInvestigation.ts. The `icon : React.ReactNode`
field is presentation-only and untranslatable, so it is omitted. -/
structure Pipeline where
  id : String
  name : String
  status : PStatus
  progress : Rat
  results : Option PipelineResult := none
  error : Option String := none
deriving DecidableEq, Inhabited

/-- `Investigation` from useForensicsInvestigation.ts. `Date` values are
rational timestamps. -/
structure Investigation where
  id : String
  query : String
  status : InvStatus
  startTime : Rat
  endTime : Option Rat := none
  pipelines : List Pipeline
  summary : Option String := none
deriving DecidableEq, Inhabited

/-- `ForensicsQuery.options` from forensicsApi.ts. -/
structure QueryOptions where
  humanReview : Bool
  priority : String
  timeout : Nat
deriving DecidableEq, Inhabited

/-- `ForensicsQuery` from forensicsApi.ts. -/
structure ForensicsQuery where
  query : String
  targets : List String
  pipelines : List String
  options : Option QueryOptions := none
deriving DecidableEq, Inhabited

/-! ### Query parser (forensicsApi.ts, `parseForensicsQuery`)

The source extracts targets with two JS regexes run in `/g` mode and picks
pipeline kinds by substring tests on the lowercased query.  The two regexes

    /\b[A-Za-z0-9._%+-]+@[A-Za-z0-9.-]+\.[A-Z|a-z]{2,}\b/g
    /\b[\w\/\\.-]+\.(jpg|jpeg|png|gif|mp4|avi|wav|mp3)\b/gi

are translated as direct greedy-backtracking matchers over character lists,
following JS semantics: attempts start at each index left to right, each
class-`+`/`{2,}` piece is tried longest-first, alternation is tried in listed
order, and after a match scanning resumes at the match end. -/

/-- JS `\w` (and the character test underlying `\b`). -/
def isWordChar (c : Char) : Bool :=
  (65 ≤ c.toNat && c.toNat ≤ 90) || (97 ≤ c.toNat && c.toNat ≤ 122) ||
  (48 ≤ c.toNat && c.toNat ≤ 57) || c = '_'

/-- Word-boundary test between an optional previous and next character
(absent characters count as non-word). -/
def wordBoundary (prev next : Option Char) : Bool :=
  (match prev with | some c => isWordChar c | none => false) !=
  (match next with | some c => isWordChar c | none => false)

/-- `[A-Za-z0-9._%+-]` (local part of the email regex). -/
def emailLocalClass (c : Char) : Bool :=
  (65 ≤ c.toNat && c.toNat ≤ 90) || (97 ≤ c.toNat && c.toNat ≤ 122) ||
  (48 ≤ c.toNat && c.toNat ≤ 57) || c = '.' || c = '_' || c = '%' || c = '+' || c = '-'

/-- `[A-Za-z0-9.-]` (domain part of the email regex). -/
def emailDomainClass (c : Char) : Bool :=
  (65 ≤ c.toNat && c.toNat ≤ 90) || (97 ≤ c.toNat && c.toNat ≤ 122) ||
  (48 ≤ c.toNat && c.toNat ≤ 57) || c = '.' || c = '-'

/-- `[A-Z|a-z]` (TLD class of the email regex; the literal `|` is part of the
class in the source pattern). -/
def emailTldClass (c : Char) : Bool :=
  (65 ≤ c.toNat && c.toNat ≤ 90) || (97 ≤ c.toNat && c.toNat ≤ 122) || c = '|'

/-- `[\w\/\\.-]` (path class of the file regex). -/
def fileClass (c : Char) : Bool :=
  isWordChar c || c = '/' || c = '\\' || c = '.' || c = '-'

/-- Longest prefix of characters satisfying `p`, with the remainder. -/
def takeClass (p : Char → Bool) : List Char → List Char × List Char
  | [] => ([], [])
  | c :: cs =>
    if p c then
      let t := takeClass p cs
      (c :: t.1, t.2)
    else ([], c :: cs)

/-- All splits `(consumed, rest)` a greedy `class{m,}` piece tries, in JS
backtracking order: maximal run first, shrinking down to `m` characters. -/
def greedySplits (p : Char → Bool) (m : Nat) (l : List Char) :
    List (List Char × List Char) :=
  let t := takeClass p l
  (List.range (t.1.length + 1 - m)).map
    (fun k => ((t.1.take (t.1.length - k)), t.1.drop (t.1.length - k) ++ t.2))

/-- First alternative on which `f` succeeds (backtracking order). -/
def firstSome (f : α → Option β) : List α → Option β
  | [] => none
  | a :: as =>
    match f a with
    | some b => some b
    | none => firstSome f as

/-- One attempt of the email regex at the current position (`prev` is the
character before the position). Returns `(matched, rest)`. -/
def matchEmailAt (prev : Option Char) (l : List Char) :
    Option (List Char × List Char) :=
  if wordBoundary prev l.head? then
    firstSome (fun a =>
      match a.2 with
      | '@' :: r2 =>
        firstSome (fun b =>
          match b.2 with
          | '.' :: r4 =>
            firstSome (fun t =>
              if wordBoundary t.1.getLast? t.2.head? then
                some (a.1 ++ '@' :: b.1 ++ '.' :: t.1, t.2)
              else none)
              (greedySplits emailTldClass 2 r4)
          | _ => none)
          (greedySplits emailDomainClass 1 r2)
      | _ => none)
      (greedySplits emailLocalClass 1 l)
  else none

/-- The file-extension alternatives, in the source pattern's order. -/
def extLits : List (List Char) :=
  [['j','p','g'], ['j','p','e','g'], ['p','n','g'], ['g','i','f'],
   ['m','p','4'], ['a','v','i'], ['w','a','v'], ['m','p','3']]

/-- Case-insensitive literal match (the file regex carries the `i` flag);
returns the consumed input characters (original case) and the rest. -/
def stripLitCI : List Char → List Char → Option (List Char × List Char)
  | [], l => some ([], l)
  | _ :: _, [] => none
  | x :: xs, c :: cs =>
    if c.toLower = x then
      match stripLitCI xs cs with
      | some t => some (c :: t.1, t.2)
      | none => none
    else none

/-- One attempt of the file regex at the current position. -/
def matchFileAt (prev : Option Char) (l : List Char) :
    Option (List Char × List Char) :=
  if wordBoundary prev l.head? then
    firstSome (fun w =>
      match w.2 with
      | '.' :: r2 =>
        firstSome (fun ext =>
          match stripLitCI ext r2 with
          | some e =>
            if wordBoundary e.1.getLast? e.2.head? then
              some (w.1 ++ '.' :: e.1, e.2)
            else none
          | none => none)
          extLits
      | _ => none)
      (greedySplits fileClass 1 l)
  else none

/-- `/g` scan: try the matcher at each position left to right; after a match
resume at its end. `fuel` bounds the recursion (input length suffices since
every match consumes at least one character). -/
def scanAux (matchAt : Option Char → List Char → Option (List Char × List Char)) :
    Nat → Option Char → List Char → List (List Char)
  | 0, _, _ => []
  | _ + 1, _, [] => []
  | fuel + 1, prev, c :: cs =>
    match matchAt prev (c :: cs) with
    | some m => m.1 :: scanAux matchAt fuel m.1.getLast? m.2
    | none => scanAux matchAt fuel (some c) cs

/-- `str.match(regex)` with the global flag, as a list of match strings
(JS `null` result and the empty list coincide for the core's use). -/
def jsMatchAll
    (matchAt : Option Char → List Char → Option (List Char × List Char))
    (s : String) : List String :=
  (scanAux matchAt (s.toList.length + 1) none s.toList).map List.asString

/-- `startsWith` on character lists (helper for `includes`). -/
def hasPrefixChars : List Char → List Char → Bool
  | [], _ => true
  | _ :: _, [] => false
  | x :: xs, c :: cs => x == c && hasPrefixChars xs cs

/-- Substring containment on character lists. -/
def containsSub (sub : List Char) : List Char → Bool
  | [] => sub.isEmpty
  | c :: cs => hasPrefixChars sub (c :: cs) || containsSub sub cs

/-- JS `String.prototype.includes`. -/
def strIncludes (s sub : String) : Bool :=
  containsSub sub.toList s.toList

/-- JS `toLowerCase` (ASCII).  The core `String.toLower` maps
`Char.toLower` over the characters but by a position-based recursion the
kernel cannot evaluate; this re-expresses the same character map
structurally. -/
def jsToLower (s : String) : String :=
  String.mk (s.toList.map Char.toLower)

/-- `parseForensicsQuery` from forensicsApi.ts. -/
def parseForensicsQuery (naturalLanguageQuery : String) : ForensicsQuery :=
  let query := jsToLower naturalLanguageQuery
  let emails := jsMatchAll matchEmailAt naturalLanguageQuery
  let files := jsMatchAll matchFileAt naturalLanguageQuery
  let targets := emails ++ files
  let pipelines :=
    (if strIncludes query "alias" || strIncludes query "username" ||
        strIncludes query "map" then ["alias-mapping"] else []) ++
    (if strIncludes query "exif" || strIncludes query "metadata" ||
        strIncludes query "extract" then ["metadata-extraction"] else []) ++
    (if strIncludes query "face" || strIncludes query "image" ||
        strIncludes query "reverse" then ["image-face-analysis"] else []) ++
    (if strIncludes query "ip" || strIncludes query "geo" ||
        strIncludes query "location" then ["geo-ip-lookup"] else []) ++
    (if strIncludes query "deepfake" || strIncludes query "manipulation" ||
        strIncludes query "authentic" then ["deepfake-detection"] else [])
  let pipelines :=
    if pipelines.isEmpty then
      ["alias-mapping", "metadata-extraction", "image-face-analysis",
       "geo-ip-lookup", "deepfake-detection"]
    else pipelines
  { query := naturalLanguageQuery
    targets := if targets.isEmpty then ["unknown"] else targets
    pipelines := pipelines
    options := some { humanReview := true, priority := "medium", timeout := 300000 } }

/-! ### Sequential executor (useForensicsInvestigation.ts, `executePipelines`)

`executePipelines` is asynchronous and mutates the hook state through
`setCurrentInvestigation`; it is modelled as an explicit event trace applied
to an explicit state.  Per stage `i` the source emits, in order: the
running-status update, `setInterval` (timer start), the interval callbacks
that fire while the stage is awaited, then on success `clearInterval`
followed by the completed-status update, and on a rejection only the
error-status update inside `catch` (the source's `catch` block contains no
`clearInterval`).  The status updates spread the *stale* `pipeline` binding
captured at the top of the loop iteration (`investigation.pipelines[i]` of
the function argument), which the model reproduces. -/

/-- The keys of the `pipelineExecutors` record in `executePipelines`. -/
def pipelineExecutorIds : List String :=
  ["alias-mapping", "metadata-extraction", "image-face-analysis",
   "geo-ip-lookup", "deepfake-detection"]

/-- The target subset handed to the Stage Runner (`executePipelines`,
target-selection branch): alias-mapping gets `targets[0] || 'unknown'`,
every other kind the full target list. -/
def selectTargets (id : String) (targets : List String) : List String :=
  if id = "alias-mapping" then [targets.headD "unknown"] else targets

/-- Result of the awaited stage-runner call: resolves with a
`PipelineResult`, or rejects (`exn (some m)` is an `Error` with message `m`,
`exn none` a non-`Error` throw). -/
inductive StageOutcome where
  | ok (r : PipelineResult)
  | exn (msg : Option String)
deriving DecidableEq, Inhabited

/-- Whether the outcome is a rejection. -/
def StageOutcome.isExn : StageOutcome → Bool
  | .ok _ => false
  | .exn _ => true

/-- `err instanceof Error ? err.message : 'Pipeline execution failed'`. -/
def errText : Option String → String
  | some m => m
  | none => "Pipeline execution failed"

/-- Environment choices for one stage: the increments `Math.random() * 15`
of the interval callbacks that fire during its running window, and what the
stage runner would do if it were invoked. -/
structure StageChoice where
  ticks : List Rat
  outcome : StageOutcome

/-- Effective result of the awaited block for pipeline id `id`: if no
executor matches, the `throw new Error('Unknown pipeline: ...')` branch is
taken unconditionally; otherwise the runner's outcome. -/
def effOutcome (id : String) (c : StageChoice) : StageOutcome :=
  if pipelineExecutorIds.contains id then c.outcome
  else .exn (some ("Unknown pipeline: " ++ id))

/-- Observable events of one `executePipelines` run. -/
inductive Ev where
  | setRunning (i : Nat)
  | startTimer (i : Nat)
  | tick (i : Nat) (inc : Rat)
  | clearTimer (i : Nat)
  | setCompleted (i : Nat) (r : PipelineResult)
  | setError (i : Nat) (msg : String)
  | finalize (t : Rat)

/-- Executor state: the current investigation plus the indices whose
`progressInterval` has been started and not cleared. -/
structure SimState where
  inv : Investigation
  timers : List Nat
deriving Inhabited

/-- `{ ...pipeline, status: 'running', progress: 0 }`. -/
def runningPipe (base : Pipeline) : Pipeline :=
  { base with status := .running, progress := 0 }

/-- `{ ...pipeline, status: 'completed', progress: 100, results: result }`. -/
def completedPipe (base : Pipeline) (r : PipelineResult) : Pipeline :=
  { base with status := .completed, progress := 100, results := some r }

/-- `{ ...pipeline, status: 'error', progress: 0, error: message }`. -/
def errorPipe (base : Pipeline) (msg : String) : Pipeline :=
  { base with status := .error, progress := 0, error := some msg }

/-- The interval callback's update of the current pipeline: only while
`status === 'running' && progress < 90`, and capped by `Math.min(90, ...)`. -/
def tickPipe (inc : Rat) (p : Pipeline) : Pipeline :=
  if p.status = .running ∧ p.progress < 90 then
    { p with progress := min 90 (p.progress + inc) }
  else p

/-- The final status update of `executePipelines`: count completed
pipelines, set `completed` only when all completed, stamp `endTime`, and
compose the summary string. -/
def finalizeInv (t : Rat) (inv : Investigation) : Investigation :=
  let completedPipelines :=
    (inv.pipelines.filter (fun p => decide (p.status = PStatus.completed))).length
  let totalPipelines := inv.pipelines.length
  { inv with
    status := if completedPipelines = totalPipelines then .completed else .error
    endTime := some t
    summary := some ("Investigation completed. " ++ toString completedPipelines ++
      "/" ++ toString totalPipelines ++ " pipelines successful.") }

/-- `setCurrentInvestigation` with `updatedPipelines[i] = p`. -/
def setPipe (s : SimState) (i : Nat) (p : Pipeline) : SimState :=
  { s with inv := { s.inv with pipelines := s.inv.pipelines.set i p } }

/-- Effect of one event.  `orig` is the `investigation` argument of
`executePipelines`, whose stale per-index `pipeline` binding the three
status updates spread. -/
def applyEv (orig : Investigation) (s : SimState) : Ev → SimState
  | .setRunning i => setPipe s i (runningPipe (orig.pipelines.getD i default))
  | .startTimer i => { s with timers := i :: s.timers }
  | .tick i inc => setPipe s i (tickPipe inc (s.inv.pipelines.getD i default))
  | .clearTimer i => { s with timers := s.timers.erase i }
  | .setCompleted i r => setPipe s i (completedPipe (orig.pipelines.getD i default) r)
  | .setError i msg => setPipe s i (errorPipe (orig.pipelines.getD i default) msg)
  | .finalize t => { s with inv := finalizeInv t s.inv }

/-- Pipeline id at index `i` of the executor's argument. -/
def pipeIdAt (orig : Investigation) (i : Nat) : String :=
  (orig.pipelines.getD i default).id

/-- Events of stage `i`, in source order; on a rejection the `catch` block
runs without any `clearInterval`. -/
def stageEvents (id : String) (i : Nat) (c : StageChoice) : List Ev :=
  [Ev.setRunning i, Ev.startTimer i] ++ c.ticks.map (Ev.tick i) ++
    (match effOutcome id c with
     | .ok r => [Ev.clearTimer i, Ev.setCompleted i r]
     | .exn m => [Ev.setError i (errText m)])

/-- Concatenated stage events for stages `j, j + 1, ...` (`cnt` many). -/
def blocksFrom (orig : Investigation) (choice : Nat → StageChoice) :
    Nat → Nat → List Ev
  | _, 0 => []
  | j, cnt + 1 =>
    stageEvents (pipeIdAt orig j) j (choice j) ++ blocksFrom orig choice (j + 1) cnt

/-- The full event trace of `executePipelines`: every stage in array
order, then the final status update. -/
def execTrace (orig : Investigation) (choice : Nat → StageChoice) (tEnd : Rat) :
    List Ev :=
  blocksFrom orig choice 0 orig.pipelines.length ++ [Ev.finalize tEnd]

/-- State at the start of a run: the executor's argument, no live timers. -/
def initState (orig : Investigation) : SimState :=
  { inv := orig, timers := [] }

/-- Final state of `executePipelines`. -/
def executePipelines (orig : Investigation) (choice : Nat → StageChoice)
    (tEnd : Rat) : SimState :=
  (execTrace orig choice tEnd).foldl (applyEv orig) (initState orig)

/-- All intermediate states of an `executePipelines` run (the initial state
followed by the state after each event). -/
def executePipelinesStates (orig : Investigation) (choice : Nat → StageChoice)
    (tEnd : Rat) : List SimState :=
  (execTrace orig choice tEnd).scanl (applyEv orig) (initState orig)

/-! ### Hook operations and App entry point -/

/-- The `Investigation` object built by `startNewInvestigation` in
useForensicsInvestigation.ts once `startInvestigation` has resolved with
`investigationId` (`t0` models `new Date()`): status `active`, and every
initial pipeline reset to `{ ...p, status: 'pending', progress: 0 }`. -/
def startNewInvestigation (naturalLanguageQuery : String)
    (initialPipelines : List Pipeline) (investigationId : String) (t0 : Rat) :
    Investigation :=
  { id := investigationId
    query := naturalLanguageQuery
    status := .active
    startTime := t0
    endTime := none
    pipelines := initialPipelines.map (fun p => { p with status := .pending, progress := 0 })
    summary := none }

/-- The hardcoded pipeline list of `startInvestigationWithPipelines` in
App.tsx (icons omitted): note the short ids `alias`, `metadata`, `image`,
`geo`, `deepfake`. -/
def appInitialPipelines : List Pipeline :=
  [ { id := "alias", name := "Alias Mapping", status := .running, progress := 0 },
    { id := "metadata", name := "Metadata Extraction", status := .pending, progress := 0 },
    { id := "image", name := "Image & Face Analysis", status := .pending, progress := 0 },
    { id := "geo", name := "Geo/IP Lookup", status := .pending, progress := 0 },
    { id := "deepfake", name := "Deepfake Detection", status := .pending, progress := 0 } ]

/-- `toggleInvestigationStatus` from useForensicsInvestigation.ts:
`prev => !prev ? prev : { ...prev, status: prev.status === 'active' ?
'paused' : 'active' }`. -/
def toggleInvestigationStatus (prev : Option Investigation) : Option Investigation :=
  match prev with
  | none => none
  | some inv =>
    some { inv with status := if inv.status = InvStatus.active then .paused else .active }

/-- Hook-level state for `stopInvestigation`: the current investigation,
whether `wsConnection` is non-null, and an instrumentation counter of
`wsConnection.disconnect()` invocations (the `ForensicsWebSocket.connect`
placeholder never assigns `this.ws`, so `disconnect`'s internal
`ws.close()` is unconditionally skipped; only the method call itself is
observable). -/
structure HookState where
  currentInvestigation : Option Investigation
  wsConnection : Bool
  disconnectCount : Nat
deriving DecidableEq, Inhabited

/-- `stopInvestigation` from useForensicsInvestigation.ts (`t` models
`new Date()`): disconnect and null the connection if present, then force
status `paused` and stamp `endTime` on the current investigation. -/
def stopInvestigation (s : HookState) (t : Rat) : HookState :=
  let s1 :=
    if s.wsConnection then
      { s with wsConnection := false, disconnectCount := s.disconnectCount + 1 }
    else s
  { s1 with currentInvestigation :=
      s1.currentInvestigation.map (fun inv => { inv with status := .paused, endTime := some t }) }

/-! ### Summary aggregator (useForensicsInvestigation.ts, `getInvestigationSummary`) -/

/-- The summary record returned by `getInvestigationSummary`. -/
structure InvestigationSummary where
  totalPipelines : Nat
  completedPipelines : Nat
  totalResults : Nat
  averageConfidence : Rat
  duration : Rat
deriving DecidableEq, Inhabited

/-- `pipeline.results?.data.length || 0` (`undefined` and `0` both coerce
to `0`). -/
def resultDataLen (p : Pipeline) : Nat :=
  match p.results with
  | some r => r.data.length
  | none => 0

/-- `pipeline.results?.metadata.confidence || 0` (a missing result — and a
confidence of exactly `0` — both yield `0`). -/
def resultConfidence (p : Pipeline) : Rat :=
  match p.results with
  | some r => r.metadata.confidence
  | none => 0

/-- The pipelines with `status === 'completed'`. -/
def completedOf (inv : Investigation) : List Pipeline :=
  inv.pipelines.filter (fun p => decide (p.status = PStatus.completed))

/-- The summary computed for an existing investigation (`now` models
`Date.now()`).  In the source, `averageConfidence` is `sum / length` guarded
by `isNaN(...) ? 0 : ...`; the division is `NaN` exactly when the completed
set is empty (then the reduce yields `0` and `0 / 0 = NaN`), which the model
renders as the explicit zero branch. -/
def investigationSummary (inv : Investigation) (now : Rat) : InvestigationSummary :=
  let completedPipelines := completedOf inv
  let totalResults := completedPipelines.foldl (fun acc p => acc + resultDataLen p) 0
  let confSum := completedPipelines.foldl (fun acc p => acc + resultConfidence p) 0
  { totalPipelines := inv.pipelines.length
    completedPipelines := completedPipelines.length
    totalResults := totalResults
    averageConfidence :=
      if completedPipelines.length = 0 then 0
      else confSum / (completedPipelines.length : Rat)
    duration :=
      match inv.endTime with
      | some e => e - inv.startTime
      | none => now - inv.startTime }

/-- `getInvestigationSummary` from useForensicsInvestigation.ts: `null`
when there is no current investigation, otherwise the summary record. -/
def getInvestigationSummary (currentInvestigation : Option Investigation)
    (now : Rat) : Option InvestigationSummary :=
  match currentInvestigation with
  | none => none
  | some inv => some (investigationSummary inv now)

/-! ### Generic list helpers -/

theorem list_set_getD_self (l : List α) (i : Nat) (d : α) :
    l.set i (l.getD i d) = l := by
  induction l generalizing i with
  | nil => rfl
  | cons a t ih =>
    cases i with
    | zero => rfl
    | succ j => simpa [List.set, List.getD] using ih j

theorem list_getD_set_self (l : List α) (i : Nat) (a d : α) (h : i < l.length) :
    (l.set i a).getD i d = a := by
  induction l generalizing i with
  | nil => simp at h
  | cons b t ih =>
    cases i with
    | zero => rfl
    | succ j =>
      simp only [List.length_cons, Nat.succ_lt_succ_iff] at h
      simpa [List.set, List.getD] using ih j h

theorem list_getD_set_other (l : List α) (i j : Nat) (a d : α) (h : i ≠ j) :
    (l.set i a).getD j d = l.getD j d := by
  induction l generalizing i j with
  | nil => rfl
  | cons b t ih =>
    cases i with
    | zero =>
      cases j with
      | zero => exact absurd rfl h
      | succ k => rfl
    | succ i' =>
      cases j with
      | zero => rfl
      | succ k =>
        simpa [List.set, List.getD] using ih i' k (fun hc => h (by simpa using hc))

theorem list_filter_length_lt (p : α → Bool) (l : List α) (a : α)
    (ha : a ∈ l) (hpa : p a = false) : (l.filter p).length < l.length := by
  induction l with
  | nil => simp at ha
  | cons b t ih =>
    rcases List.mem_cons.mp ha with rfl | hmem
    · simp only [List.filter_cons, hpa, List.length_cons]
      exact Nat.lt_succ_of_le (List.length_filter_le p t)
    · by_cases hb : p b
      · simpa [List.filter_cons, hb] using Nat.succ_lt_succ (ih hmem)
      · simp only [List.filter_cons, hb, Bool.false_eq_true, if_false, List.length_cons]
        exact Nat.lt_succ_of_lt (ih hmem)

theorem mem_scanl_append (f : β → α → β) (l1 l2 : List α) (b : β) (x : β) :
    x ∈ (l1 ++ l2).scanl f b ↔
      x ∈ l1.scanl f b ∨ x ∈ l2.scanl f (l1.foldl f b) := by
  induction l1 generalizing b with
  | nil =>
    simp only [List.nil_append, List.scanl_nil, List.foldl_nil, List.mem_singleton]
    constructor
    · intro h; exact Or.inr h
    · rintro (rfl | h)
      · cases l2 with
        | nil => simp [List.scanl_nil]
        | cons a t => simp [List.scanl_cons]
      · exact h
  | cons a t ih =>
    simp only [List.cons_append, List.scanl_cons, List.singleton_append, List.nil_append, List.mem_cons,
      List.foldl_cons]
    rw [ih]
    tauto

theorem mem_scanl_invariant (P : β → Prop) (f : β → α → β) (l : List α) (b : β)
    (hb : P b) (hstep : ∀ y a, P y → P (f y a)) :
    ∀ x ∈ l.scanl f b, P x := by
  induction l generalizing b with
  | nil =>
    intro x hx
    simp only [List.scanl_nil, List.mem_singleton] at hx
    exact hx ▸ hb
  | cons a t ih =>
    intro x hx
    simp only [List.scanl_cons, List.singleton_append, List.nil_append, List.mem_cons] at hx
    rcases hx with rfl | hx
    · exact hb
    · exact ih (f b a) (hstep b a hb) x hx

/-! ### Characterizing one stage's fold -/

theorem foldl_tick_exists (orig : Investigation) (i : Nat) (incs : List Rat) :
    ∀ s : SimState,
      ∃ q, ((incs.map (Ev.tick i)).foldl (applyEv orig) s) = setPipe s i q := by
  induction incs with
  | nil =>
    intro s
    refine ⟨s.inv.pipelines.getD i default, ?_⟩
    unfold setPipe
    rw [list_set_getD_self]
    rfl
  | cons inc rest ih =>
    intro s
    simp only [List.map_cons, List.foldl_cons]
    obtain ⟨q, hq⟩ := ih (applyEv orig s (Ev.tick i inc))
    refine ⟨q, hq.trans ?_⟩
    simp [applyEv, setPipe, List.set_set]

/-- On a successful stage the fold sets pipeline `i` to its completed form
and restores the timer set (`clearInterval` runs). -/
theorem foldl_stage_ok (orig : Investigation) (id : String) (i : Nat)
    (c : StageChoice) (r : PipelineResult) (s : SimState)
    (h : effOutcome id c = .ok r) :
    (stageEvents id i c).foldl (applyEv orig) s =
      setPipe s i (completedPipe (orig.pipelines.getD i default) r) := by
  have hmatch : stageEvents id i c =
      [Ev.setRunning i, Ev.startTimer i] ++ c.ticks.map (Ev.tick i) ++
        [Ev.clearTimer i, Ev.setCompleted i r] := by
    simp [stageEvents, h]
  rw [hmatch, List.foldl_append, List.foldl_append]
  obtain ⟨q, hq⟩ := foldl_tick_exists orig i c.ticks
    (List.foldl (applyEv orig) s [Ev.setRunning i, Ev.startTimer i])
  rw [hq]
  simp [applyEv, setPipe, List.set_set, List.erase_cons_head]

/-- On a rejected stage the `catch` block runs without `clearInterval`: the
fold sets pipeline `i` to its error form and index `i` stays in the live
timer set. -/
theorem foldl_stage_exn (orig : Investigation) (id : String) (i : Nat)
    (c : StageChoice) (m : Option String) (s : SimState)
    (h : effOutcome id c = .exn m) :
    (stageEvents id i c).foldl (applyEv orig) s =
      { setPipe s i (errorPipe (orig.pipelines.getD i default) (errText m)) with
        timers := i :: s.timers } := by
  have hmatch : stageEvents id i c =
      [Ev.setRunning i, Ev.startTimer i] ++ c.ticks.map (Ev.tick i) ++
        [Ev.setError i (errText m)] := by
    simp [stageEvents, h]
  rw [hmatch, List.foldl_append, List.foldl_append]
  obtain ⟨q, hq⟩ := foldl_tick_exists orig i c.ticks
    (List.foldl (applyEv orig) s [Ev.setRunning i, Ev.startTimer i])
  rw [hq]
  simp [applyEv, setPipe, List.set_set]

/-! ### Characterizing a whole run -/

/-- The terminal pipeline value stage `i` leaves behind. -/
def finalPipe (orig : Investigation) (choice : Nat → StageChoice) (i : Nat) :
    Pipeline :=
  match effOutcome (pipeIdAt orig i) (choice i) with
  | .ok r => completedPipe (orig.pipelines.getD i default) r
  | .exn m => errorPipe (orig.pipelines.getD i default) (errText m)

/-- Indices of stages `j, ..., j + cnt - 1` whose interval is never
cleared (those whose awaited block rejects), innermost first. -/
def leakedTimers (orig : Investigation) (choice : Nat → StageChoice) :
    Nat → Nat → List Nat
  | _, 0 => []
  | j, cnt + 1 =>
    leakedTimers orig choice (j + 1) cnt ++
      (if (effOutcome (pipeIdAt orig j) (choice j)).isExn then [j] else [])

/-- Pipeline-list effect of stages `j, ..., j + cnt - 1`. -/
def setStages (orig : Investigation) (choice : Nat → StageChoice) :
    Nat → Nat → List Pipeline → List Pipeline
  | _, 0, ps => ps
  | j, cnt + 1, ps =>
    setStages orig choice (j + 1) cnt (ps.set j (finalPipe orig choice j))

theorem foldl_blocks (orig : Investigation) (choice : Nat → StageChoice) :
    ∀ (cnt j : Nat) (s : SimState),
      ((blocksFrom orig choice j cnt).foldl (applyEv orig) s) =
        { inv := { s.inv with
              pipelines := setStages orig choice j cnt s.inv.pipelines }
          timers := leakedTimers orig choice j cnt ++ s.timers } := by
  intro cnt
  induction cnt with
  | zero =>
    intro j s
    simp [blocksFrom, setStages, leakedTimers]
  | succ n ih =>
    intro j s
    rw [blocksFrom, List.foldl_append]
    cases h : effOutcome (pipeIdAt orig j) (choice j) with
    | ok r =>
      rw [foldl_stage_ok orig (pipeIdAt orig j) j (choice j) r s h, ih]
      simp [setPipe, setStages, leakedTimers, finalPipe, h, StageOutcome.isExn]
    | exn m =>
      rw [foldl_stage_exn orig (pipeIdAt orig j) j (choice j) m s h, ih]
      simp [setPipe, setStages, leakedTimers, finalPipe, h, StageOutcome.isExn]

/-- Normal form of a full `executePipelines` run. -/
theorem executePipelines_eq (orig : Investigation) (choice : Nat → StageChoice)
    (tEnd : Rat) :
    executePipelines orig choice tEnd =
      { inv := finalizeInv tEnd { orig with
            pipelines := setStages orig choice 0 orig.pipelines.length orig.pipelines }
        timers := leakedTimers orig choice 0 orig.pipelines.length } := by
  unfold executePipelines execTrace
  rw [List.foldl_append, foldl_blocks]
  simp [applyEv, initState]

theorem getD_cases (l : List α) (i : Nat) (d : α) :
    l.getD i d ∈ l ∨ l.getD i d = d := by
  by_cases hi : i < l.length
  · left
    rw [List.getD_eq_getElem l d hi]
    exact List.getElem_mem hi
  · right
    exact List.getD_eq_default l d (Nat.le_of_not_lt hi)

theorem mem_scanl_invariant_mem (P : β → Prop) (f : β → α → β) (l : List α)
    (b : β) (hb : P b) (hstep : ∀ y a, a ∈ l → P y → P (f y a)) :
    ∀ x ∈ l.scanl f b, P x := by
  induction l generalizing b with
  | nil =>
    intro x hx
    simp only [List.scanl_nil, List.mem_singleton] at hx
    exact hx ▸ hb
  | cons a t ih =>
    intro x hx
    simp only [List.scanl_cons, List.singleton_append, List.nil_append,
      List.mem_cons] at hx
    rcases hx with rfl | hx
    · exact hb
    · exact ih (f b a) (hstep b a (List.mem_cons_self a t) hb)
        (fun y e he hy => hstep y e (List.mem_cons_of_mem a he) hy) x hx

theorem setStages_length (orig : Investigation) (choice : Nat → StageChoice) :
    ∀ (cnt j : Nat) (ps : List Pipeline),
      (setStages orig choice j cnt ps).length = ps.length := by
  intro cnt
  induction cnt with
  | zero => intro j ps; rfl
  | succ n ih =>
    intro j ps
    rw [setStages, ih, List.length_set]

theorem setStages_getD_out (orig : Investigation) (choice : Nat → StageChoice) :
    ∀ (cnt j : Nat) (ps : List Pipeline) (k : Nat) (d : Pipeline),
      (k < j ∨ j + cnt ≤ k) →
      (setStages orig choice j cnt ps).getD k d = ps.getD k d := by
  intro cnt
  induction cnt with
  | zero => intro j ps k d _; rfl
  | succ n ih =>
    intro j ps k d hk
    rw [setStages, ih (j + 1) _ k d (by omega),
      list_getD_set_other _ _ _ _ _ (by omega)]

theorem setStages_getD_in (orig : Investigation) (choice : Nat → StageChoice) :
    ∀ (cnt j : Nat) (ps : List Pipeline) (k : Nat) (d : Pipeline),
      j ≤ k → k < j + cnt → k < ps.length →
      (setStages orig choice j cnt ps).getD k d = finalPipe orig choice k := by
  intro cnt
  induction cnt with
  | zero => intro j ps k d h1 h2 _; omega
  | succ n ih =>
    intro j ps k d h1 h2 hlen
    rw [setStages]
    rcases Nat.eq_or_lt_of_le h1 with rfl | hjk
    · rw [setStages_getD_out orig choice n (j + 1) _ j d (Or.inl (Nat.lt_succ_self j)),
        list_getD_set_self _ _ _ _ hlen]
    · exact ih (j + 1) _ k d hjk (by omega) (by rw [List.length_set]; exact hlen)

theorem mem_leakedTimers (orig : Investigation) (choice : Nat → StageChoice) :
    ∀ (cnt j i : Nat),
      (i ∈ leakedTimers orig choice j cnt ↔
        j ≤ i ∧ i < j + cnt ∧
          (effOutcome (pipeIdAt orig i) (choice i)).isExn = true) := by
  intro cnt
  induction cnt with
  | zero => intro j i; simp [leakedTimers]; omega
  | succ n ih =>
    intro j i
    rw [leakedTimers, List.mem_append, ih (j + 1) i]
    by_cases hx : (effOutcome (pipeIdAt orig j) (choice j)).isExn = true
    · rw [if_pos hx]
      simp only [List.mem_singleton]
      constructor
      · rintro (⟨h1, h2, h3⟩ | heq)
        · exact ⟨by omega, by omega, h3⟩
        · rw [heq]
          exact ⟨Nat.le_refl j, by omega, hx⟩
      · rintro ⟨h1, h2, h3⟩
        rcases Nat.lt_or_ge i (j + 1) with hlt | hge
        · exact Or.inr (by omega)
        · exact Or.inl ⟨hge, by omega, h3⟩
    · rw [if_neg hx]
      simp only [List.not_mem_nil, or_false]
      constructor
      · rintro ⟨h1, h2, h3⟩
        exact ⟨by omega, by omega, h3⟩
      · rintro ⟨h1, h2, h3⟩
        rcases Nat.lt_or_ge i (j + 1) with hlt | hge
        · have heq : i = j := by omega
          rw [heq] at h3
          exact absurd h3 hx
        · exact ⟨hge, by omega, h3⟩

/-! ### Fixtures for the claims -/

/-- The scenario query of the spec's first test scenario. -/
def c1Query : String := "check user@example.com images/photo.jpg"

/-- The investigation component of a finished run. -/
def runInv (orig : Investigation) (choice : Nat → StageChoice) (tEnd : Rat) :
    Investigation :=
  (executePipelines orig choice tEnd).inv

/-- The investigation the entry point builds for the scenario query. -/
def appOrig (invId : String) (t0 : Rat) : Investigation :=
  startNewInvestigation c1Query appInitialPipelines invId t0

/-- Environment in which every invoked stage runner would succeed at once. -/
def okChoice : Nat → StageChoice :=
  fun _ => { ticks := [], outcome := .ok default }

/-! ### Claim theorems -/

theorem c1_statuses_aux (choice : Nat → StageChoice) (tEnd t0 : Rat)
    (invId : String) :
    (runInv (appOrig invId t0) choice tEnd).pipelines.map Pipeline.status =
      [.error, .error, .error, .error, .error] := by
  unfold runInv appOrig
  rw [executePipelines_eq]
  rfl

theorem c1_errors_aux (choice : Nat → StageChoice) (tEnd t0 : Rat)
    (invId : String) :
    (runInv (appOrig invId t0) choice tEnd).pipelines.map Pipeline.error =
      [some "Unknown pipeline: alias", some "Unknown pipeline: metadata",
       some "Unknown pipeline: image", some "Unknown pipeline: geo",
       some "Unknown pipeline: deepfake"] := by
  unfold runInv appOrig
  rw [executePipelines_eq]
  rfl

theorem c1_status_aux (choice : Nat → StageChoice) (tEnd t0 : Rat)
    (invId : String) :
    (runInv (appOrig invId t0) choice tEnd).status = InvStatus.error := by
  unfold runInv appOrig
  rw [executePipelines_eq]
  rfl

/-- The five terminal pipelines a scenario run leaves behind: every stage
hit the `Unknown pipeline` branch. -/
def c1ErrorPipes : List Pipeline :=
  [ { id := "alias", name := "Alias Mapping", status := .error, progress := 0,
      results := none, error := some "Unknown pipeline: alias" },
    { id := "metadata", name := "Metadata Extraction", status := .error, progress := 0,
      results := none, error := some "Unknown pipeline: metadata" },
    { id := "image", name := "Image & Face Analysis", status := .error, progress := 0,
      results := none, error := some "Unknown pipeline: image" },
    { id := "geo", name := "Geo/IP Lookup", status := .error, progress := 0,
      results := none, error := some "Unknown pipeline: geo" },
    { id := "deepfake", name := "Deepfake Detection", status := .error, progress := 0,
      results := none, error := some "Unknown pipeline: deepfake" } ]

theorem c1_summary_aux (choice : Nat → StageChoice) (tEnd t0 : Rat)
    (invId : String) :
    (runInv (appOrig invId t0) choice tEnd).summary =
      some "Investigation completed. 0/5 pipelines successful." := by
  unfold runInv
  rw [executePipelines_eq]
  have h0 : setStages (appOrig invId t0) choice 0 (appOrig invId t0).pipelines.length
      (appOrig invId t0).pipelines = c1ErrorPipes := rfl
  simp only [h0]
  have h1 : (finalizeInv tEnd { appOrig invId t0 with pipelines := c1ErrorPipes }).summary =
      some ("Investigation completed. " ++ toString (0 : Nat) ++ "/" ++
        toString (5 : Nat) ++ " pipelines successful.") := rfl
  rw [h1]
  rfl

/-- C1: for the query "check user@example.com images/photo.jpg" through the
app's entry point, the parsed targets are exactly the email and the file
path — but no Stage Runner ever executes: App.tsx's hardcoded pipeline ids
(`alias`, `metadata`, `image`, `geo`, `deepfake`) match no key of the
executor map (`alias-mapping`, ...), so every stage takes the
`Unknown pipeline` error branch no matter what the stage runners would do,
and the final investigation is `error` with summary
"Investigation completed. 0/5 pipelines successful." instead of the claimed
`completed` with "5/5 pipelines successful."  (The parser also selects only
`image-face-analysis`, since "images/photo.jpg" contains the keyword
`image`; the executor ignores the parsed kinds either way.) -/
theorem c1_entry_point_run (choice : Nat → StageChoice) (tEnd t0 : Rat)
    (invId : String) :
    (parseForensicsQuery c1Query).targets = ["user@example.com", "images/photo.jpg"] ∧
    (parseForensicsQuery c1Query).pipelines = ["image-face-analysis"] ∧
    ((runInv (appOrig invId t0) choice tEnd).pipelines.map Pipeline.status =
      [.error, .error, .error, .error, .error]) ∧
    ((runInv (appOrig invId t0) choice tEnd).pipelines.map Pipeline.error =
      [some "Unknown pipeline: alias", some "Unknown pipeline: metadata",
       some "Unknown pipeline: image", some "Unknown pipeline: geo",
       some "Unknown pipeline: deepfake"]) ∧
    (runInv (appOrig invId t0) choice tEnd).status = InvStatus.error ∧
    (runInv (appOrig invId t0) choice tEnd).summary =
      some "Investigation completed. 0/5 pipelines successful." := by
  exact ⟨by decide, by decide, c1_statuses_aux choice tEnd t0 invId,
    c1_errors_aux choice tEnd t0 invId, c1_status_aux choice tEnd t0 invId,
    c1_summary_aux choice tEnd t0 invId⟩

/-- C2: the progress-simulator interval is cleared only on the success path;
whenever a stage's awaited block rejects (a runner rejection or the
unknown-PipelineKind throw), `clearInterval` is skipped and that stage's
timer is still live when the whole run is over. -/
theorem c2_timer_leak (orig : Investigation) (choice : Nat → StageChoice)
    (tEnd : Rat) (i : Nat) (hi : i < orig.pipelines.length) :
    ((effOutcome (pipeIdAt orig i) (choice i)).isExn = true →
      i ∈ (executePipelines orig choice tEnd).timers) ∧
    ((effOutcome (pipeIdAt orig i) (choice i)).isExn = false →
      i ∉ (executePipelines orig choice tEnd).timers) := by
  rw [executePipelines_eq]
  constructor
  · intro hx
    exact (mem_leakedTimers orig choice orig.pipelines.length 0 i).mpr
      ⟨Nat.zero_le i, by omega, hx⟩
  · intro hx hmem
    have hc := (mem_leakedTimers orig choice orig.pipelines.length 0 i).mp hmem
    rw [hx] at hc
    exact absurd hc.2.2 (by simp)

/-- Witness for C2 at the entry-point run: stage 0 (`alias`) rejects with
`Unknown pipeline: alias` and its timer is still live afterwards. -/
theorem c2_timer_leak_witness :
    0 < (appOrig "inv-w" 0).pipelines.length ∧
    (effOutcome (pipeIdAt (appOrig "inv-w" 0) 0) (okChoice 0)).isExn = true ∧
    0 ∈ (executePipelines (appOrig "inv-w" 0) okChoice 0).timers :=
  ⟨by decide, by decide,
    (c2_timer_leak (appOrig "inv-w" 0) okChoice 0 0 (by decide)).1 (by decide)⟩

/-- A completed investigation, as `toggle()`'s argument. -/
def c3Inv : Investigation :=
  { id := "inv-c3", query := "q", status := .completed, startTime := 0, pipelines := [] }

/-- C3 counterexample: `toggle()` on a completed investigation is not a
no-op — the status becomes `active`, not `completed`. -/
theorem c3_toggle_counterexample :
    (toggleInvestigationStatus (some c3Inv)).map Investigation.status =
      some InvStatus.active ∧
    (toggleInvestigationStatus (some c3Inv)).map Investigation.status ≠
      some InvStatus.completed := by
  exact ⟨rfl, by decide⟩

/-- C3 amended: `toggle()` maps `active` to `paused` and every other status
— `paused`, but also the terminal `completed` and `error` — to `active`; on
a terminal investigation it is a reactivation, not a no-op. -/
theorem c3_toggle_amended (inv : Investigation) :
    (toggleInvestigationStatus (some inv)).map Investigation.status =
      some (match inv.status with
        | InvStatus.active => InvStatus.paused
        | _ => InvStatus.active) ∧
    (toggleInvestigationStatus (some { inv with status := InvStatus.completed })).map
        Investigation.status = some InvStatus.active ∧
    toggleInvestigationStatus none = none := by
  refine ⟨?_, rfl, rfl⟩
  cases h : inv.status <;> simp [toggleInvestigationStatus, h]

/-- A running investigation with an open realtime connection, as the state
on which `stop()` is exercised. -/
def c5Inv : Investigation :=
  { id := "inv-c5", query := "q", status := .active, startTime := 0, pipelines := [] }

/-- Hook state holding `c5Inv` with a live `wsConnection`. -/
def c5Start : HookState :=
  { currentInvestigation := some c5Inv, wsConnection := true, disconnectCount := 0 }

/-- C5 counterexample: `endedAt` is not set exactly once across repeated
`stop()` calls — a second `stop()` at a later time overwrites it. -/
theorem c5_stop_counterexample :
    ((stopInvestigation c5Start 1).currentInvestigation.map Investigation.endTime =
      some (some 1)) ∧
    ((stopInvestigation (stopInvestigation c5Start 1) 2).currentInvestigation.map
        Investigation.endTime = some (some 2)) ∧
    ((stopInvestigation (stopInvestigation c5Start 1) 2).currentInvestigation.map
        Investigation.endTime ≠ some (some 1)) :=
  ⟨rfl, rfl, by decide⟩

/-- C5 amended: `stop()` forces status to `paused`, stamps `endedAt`, and
invokes the channel's `disconnect()` exactly once across repeated calls
(the connection is nulled by the first call); it is idempotent in status
and connection, but every `stop()` re-stamps `endedAt` with its own time. -/
theorem c5_stop_amended (s : HookState) (inv : Investigation) (t t2 : Rat)
    (h : s.currentInvestigation = some inv) :
    (stopInvestigation s t).currentInvestigation =
      some { inv with status := InvStatus.paused, endTime := some t } ∧
    (stopInvestigation s t).wsConnection = false ∧
    (stopInvestigation s t).disconnectCount =
      s.disconnectCount + (if s.wsConnection then 1 else 0) ∧
    (stopInvestigation (stopInvestigation s t) t2).disconnectCount =
      (stopInvestigation s t).disconnectCount ∧
    (stopInvestigation (stopInvestigation s t) t2).currentInvestigation =
      some { inv with status := InvStatus.paused, endTime := some t2 } := by
  cases hw : s.wsConnection <;> simp [stopInvestigation, hw, h]

/-- Witness for the amended C5 at a concrete state: one disconnect across
two stops, `paused` both times, `endedAt` following the latest stop. -/
theorem c5_stop_amended_witness :
    c5Start.currentInvestigation = some c5Inv ∧
    ((stopInvestigation c5Start 1).currentInvestigation =
      some { c5Inv with status := InvStatus.paused, endTime := some 1 } ∧
    (stopInvestigation c5Start 1).wsConnection = false ∧
    (stopInvestigation c5Start 1).disconnectCount =
      c5Start.disconnectCount + (if c5Start.wsConnection then 1 else 0) ∧
    (stopInvestigation (stopInvestigation c5Start 1) 2).disconnectCount =
      (stopInvestigation c5Start 1).disconnectCount ∧
    (stopInvestigation (stopInvestigation c5Start 1) 2).currentInvestigation =
      some { c5Inv with status := InvStatus.paused, endTime := some 2 }) :=
  ⟨rfl, c5_stop_amended c5Start c5Inv 1 2 rfl⟩

theorem foldl_add_resultConfidence (l : List Pipeline) :
    ∀ a : Rat, l.foldl (fun acc p => acc + resultConfidence p) a =
      a + (l.map resultConfidence).sum := by
  induction l with
  | nil => intro a; simp
  | cons p t ih =>
    intro a
    simp only [List.foldl_cons, List.map_cons, List.sum_cons, ih, add_assoc]

/-- C9: `averageConfidence` is exactly 0 when no pipeline has completed (the
`isNaN` guard catches the `0 / 0` of the empty reduce), and otherwise the
mean of the completed pipelines' result confidences. -/
theorem c9_averageConfidence (inv : Investigation) (now : Rat) :
    (completedOf inv = [] → (investigationSummary inv now).averageConfidence = 0) ∧
    (completedOf inv ≠ [] →
      (investigationSummary inv now).averageConfidence =
        ((completedOf inv).map resultConfidence).sum /
          ((completedOf inv).length : Rat)) := by
  constructor
  · intro he
    simp [investigationSummary, he]
  · intro hne
    have hlen : (completedOf inv).length ≠ 0 :=
      fun h0 => hne (List.length_eq_zero.mp h0)
    simp [investigationSummary, hlen, foldl_add_resultConfidence]

/-- An investigation with no completed pipeline. -/
def c9InvA : Investigation :=
  { id := "inv-c9a", query := "q", status := .active, startTime := 0,
    pipelines := [ { id := "alias-mapping", name := "A", status := .running, progress := 10 } ] }

/-- A stage result like the alias-mapping placeholder's. -/
def c9Result : PipelineResult :=
  { pipelineId := "alias-mapping"
    status := "success"
    data := [(), (), ()]
    metadata := { executionTime := 2500, confidence := 91/100, sources := ["theHarvester", "twint", "SpiderFoot"] } }

/-- An investigation with one completed pipeline carrying a result. -/
def c9InvB : Investigation :=
  { id := "inv-c9b", query := "q", status := .completed, startTime := 0,
    pipelines :=
      [ { id := "alias-mapping", name := "A", status := .completed, progress := 100,
          results := some c9Result } ] }

/-- Witness for C9: the zero branch on an investigation with no completed
pipeline, and the mean branch on one with a completed pipeline. -/
theorem c9_averageConfidence_witness :
    (completedOf c9InvA = [] ∧
      (investigationSummary c9InvA 3).averageConfidence = 0) ∧
    (completedOf c9InvB ≠ [] ∧
      (investigationSummary c9InvB 3).averageConfidence =
        ((completedOf c9InvB).map resultConfidence).sum /
          ((completedOf c9InvB).length : Rat)) :=
  ⟨⟨by decide, (c9_averageConfidence c9InvA 3).1 (by decide)⟩,
   ⟨by decide, (c9_averageConfidence c9InvB 3).2 (by decide)⟩⟩

/-- C10: with no current investigation the summary accessor returns `null`;
once an investigation exists it returns a populated record. -/
theorem c10_no_investigation_null :
    (∀ now : Rat, getInvestigationSummary none now = none) ∧
    (∀ (inv : Investigation) (now : Rat),
      getInvestigationSummary (some inv) now = some (investigationSummary inv now)) :=
  ⟨fun _ => rfl, fun _ _ => rfl⟩

theorem finalizeInv_pipelines (t : Rat) (inv : Investigation) :
    (finalizeInv t inv).pipelines = inv.pipelines := rfl

theorem finalizeInv_status (t : Rat) (inv : Investigation) :
    (finalizeInv t inv).status =
      (if (inv.pipelines.filter (fun p => decide (p.status = PStatus.completed))).length
          = inv.pipelines.length then InvStatus.completed else InvStatus.error) := rfl

theorem finalizeInv_summary_eq (t : Rat) (inv : Investigation) :
    (finalizeInv t inv).summary =
      some ("Investigation completed. " ++
        toString (inv.pipelines.filter
          (fun p => decide (p.status = PStatus.completed))).length ++ "/" ++
        toString inv.pipelines.length ++ " pipelines successful.") := rfl

/-- C4: a stage whose awaited block rejects (runner rejection or unknown
PipelineKind) is isolated: that pipeline ends `error` with its
`errorMessage` populated from the failure, every pipeline still reaches a
terminal status, the investigation's final status is demoted to `error`,
and the success-ratio summary string is still produced.  (The executor
model is total by construction: the `catch` absorbs every rejection, so no
exception escapes.) -/
theorem c4_failure_isolated (orig : Investigation) (choice : Nat → StageChoice)
    (tEnd : Rat) (i : Nat) (m : Option String)
    (hi : i < orig.pipelines.length)
    (hexn : effOutcome (pipeIdAt orig i) (choice i) = .exn m) :
    ((runInv orig choice tEnd).pipelines.getD i default).status = PStatus.error ∧
    ((runInv orig choice tEnd).pipelines.getD i default).error = some (errText m) ∧
    (∀ k, k < orig.pipelines.length →
      ((runInv orig choice tEnd).pipelines.getD k default).status = PStatus.completed ∨
      ((runInv orig choice tEnd).pipelines.getD k default).status = PStatus.error) ∧
    (runInv orig choice tEnd).status = InvStatus.error ∧
    (runInv orig choice tEnd).summary =
      some ("Investigation completed. " ++
        toString ((runInv orig choice tEnd).pipelines.filter
          (fun p => decide (p.status = PStatus.completed))).length ++ "/" ++
        toString orig.pipelines.length ++ " pipelines successful.") := by
  unfold runInv
  rw [executePipelines_eq]
  simp only [finalizeInv_pipelines, finalizeInv_status, finalizeInv_summary_eq]
  have hgetD : ∀ k, k < orig.pipelines.length →
      (setStages orig choice 0 orig.pipelines.length orig.pipelines).getD k default
        = finalPipe orig choice k := by
    intro k hk
    exact setStages_getD_in orig choice orig.pipelines.length 0 orig.pipelines k default
      (Nat.zero_le k) (by omega) hk
  have hip : (setStages orig choice 0 orig.pipelines.length orig.pipelines).getD i default
      = errorPipe (orig.pipelines.getD i default) (errText m) := by
    rw [hgetD i hi]
    unfold finalPipe
    rw [hexn]
  have hslen : (setStages orig choice 0 orig.pipelines.length orig.pipelines).length
      = orig.pipelines.length :=
    setStages_length orig choice orig.pipelines.length 0 orig.pipelines
  have hmem : (setStages orig choice 0 orig.pipelines.length orig.pipelines).getD i default
      ∈ setStages orig choice 0 orig.pipelines.length orig.pipelines := by
    rw [List.getD_eq_getElem _ _ (by rw [hslen]; exact hi)]
    exact List.getElem_mem _
  have hnotc : (fun p => decide (p.status = PStatus.completed))
      ((setStages orig choice 0 orig.pipelines.length orig.pipelines).getD i default)
        = false := by
    rw [hip]
    rfl
  have hlt := list_filter_length_lt (fun p => decide (p.status = PStatus.completed))
    (setStages orig choice 0 orig.pipelines.length orig.pipelines)
    ((setStages orig choice 0 orig.pipelines.length orig.pipelines).getD i default)
    hmem hnotc
  refine ⟨?_, ?_, ?_, ?_, ?_⟩
  · rw [hip]
    rfl
  · rw [hip]
    rfl
  · intro k hk
    rw [hgetD k hk]
    unfold finalPipe
    cases effOutcome (pipeIdAt orig k) (choice k) with
    | ok r => exact Or.inl rfl
    | exn m2 => exact Or.inr rfl
  · rw [if_neg]
    omega
  · rw [hslen]

/-- Witness for C4 at the entry-point run: stage 0 fails with the unknown-id
error, all five pipelines are terminal, and the investigation ends `error`
with the ratio summary. -/
theorem c4_failure_isolated_witness :
    0 < (appOrig "inv-w4" 0).pipelines.length ∧
    effOutcome (pipeIdAt (appOrig "inv-w4" 0) 0) (okChoice 0) =
      StageOutcome.exn (some "Unknown pipeline: alias") ∧
    (((runInv (appOrig "inv-w4" 0) okChoice 0).pipelines.getD 0 default).status = PStatus.error ∧
     ((runInv (appOrig "inv-w4" 0) okChoice 0).pipelines.getD 0 default).error =
       some (errText (some "Unknown pipeline: alias")) ∧
     (∀ k, k < (appOrig "inv-w4" 0).pipelines.length →
       ((runInv (appOrig "inv-w4" 0) okChoice 0).pipelines.getD k default).status = PStatus.completed ∨
       ((runInv (appOrig "inv-w4" 0) okChoice 0).pipelines.getD k default).status = PStatus.error) ∧
     (runInv (appOrig "inv-w4" 0) okChoice 0).status = InvStatus.error ∧
     (runInv (appOrig "inv-w4" 0) okChoice 0).summary =
       some ("Investigation completed. " ++
         toString ((runInv (appOrig "inv-w4" 0) okChoice 0).pipelines.filter
           (fun p => decide (p.status = PStatus.completed))).length ++ "/" ++
         toString (appOrig "inv-w4" 0).pipelines.length ++ " pipelines successful.")) :=
  ⟨by decide, rfl,
    c4_failure_isolated (appOrig "inv-w4" 0) okChoice 0 0
      (some "Unknown pipeline: alias") (by decide) rfl⟩

/-! ### C6: pipeline terminal-state invariants -/

/-- Pipelines as `startNewInvestigation` creates them: pending, no result,
no error message. -/
def cleanPipes (orig : Investigation) : Prop :=
  ∀ p ∈ orig.pipelines, p.status = PStatus.pending ∧ p.results = none ∧ p.error = none

/-- The per-pipeline invariant the executor maintains: a completed pipeline
carries `progress = 100` and a result and no error message; an errored one
carries `progress = 0` and an error message and no result; a pending or
running one carries neither. -/
def pipelineInvariant (p : Pipeline) : Prop :=
  (p.status = PStatus.completed → p.progress = 100 ∧ p.results.isSome ∧ p.error = none) ∧
  (p.status = PStatus.error → p.progress = 0 ∧ p.error.isSome ∧ p.results = none) ∧
  (p.status = PStatus.pending ∨ p.status = PStatus.running →
    p.results = none ∧ p.error = none)

theorem pipelineInvariant_of_clean (p : Pipeline)
    (h1 : p.status = PStatus.pending) (h2 : p.results = none) (h3 : p.error = none) :
    pipelineInvariant p := by
  refine ⟨?_, ?_, fun _ => ⟨h2, h3⟩⟩
  · intro hc
    rw [h1] at hc
    exact absurd hc (by decide)
  · intro hc
    rw [h1] at hc
    exact absurd hc (by decide)

theorem pipelineInvariant_exclusive (p : Pipeline) (h : pipelineInvariant p) :
    ¬(p.results.isSome ∧ p.error.isSome) := by
  rintro ⟨hr, he⟩
  cases hs : p.status with
  | pending =>
    rw [(h.2.2 (Or.inl hs)).1] at hr
    exact absurd hr (by decide)
  | running =>
    rw [(h.2.2 (Or.inr hs)).1] at hr
    exact absurd hr (by decide)
  | completed =>
    rw [(h.1 hs).2.2] at he
    exact absurd he (by decide)
  | error =>
    rw [(h.2.1 hs).2.2] at hr
    exact absurd hr (by decide)

theorem pinv_runningPipe (b : Pipeline) (hr : b.results = none) (he : b.error = none) :
    pipelineInvariant (runningPipe b) := by
  refine ⟨fun hc => absurd hc (by simp [runningPipe]), fun hc => absurd hc (by simp [runningPipe]),
    fun _ => ⟨hr, he⟩⟩

theorem pinv_completedPipe (b : Pipeline) (r : PipelineResult) (he : b.error = none) :
    pipelineInvariant (completedPipe b r) := by
  refine ⟨fun _ => ⟨rfl, rfl, he⟩, fun hc => absurd hc (by simp [completedPipe]), ?_⟩
  rintro (hc | hc) <;> exact absurd hc (by simp [completedPipe])

theorem pinv_errorPipe (b : Pipeline) (msg : String) (hr : b.results = none) :
    pipelineInvariant (errorPipe b msg) := by
  refine ⟨fun hc => absurd hc (by simp [errorPipe]), fun _ => ⟨rfl, rfl, hr⟩, ?_⟩
  rintro (hc | hc) <;> exact absurd hc (by simp [errorPipe])

theorem pinv_tickPipe (inc : Rat) (q : Pipeline) (hq : pipelineInvariant q) :
    pipelineInvariant (tickPipe inc q) := by
  unfold tickPipe
  by_cases hg : q.status = PStatus.running ∧ q.progress < 90
  · rw [if_pos hg]
    refine ⟨?_, ?_, fun _ => (hq.2.2 (Or.inr hg.1))⟩
    · intro hc
      exact absurd (hg.1.symm.trans hc) (by decide)
    · intro hc
      exact absurd (hg.1.symm.trans hc) (by decide)
  · rw [if_neg hg]
    exact hq

theorem pinv_getD (s : SimState)
    (hs : ∀ p ∈ s.inv.pipelines, pipelineInvariant p) (i : Nat) :
    pipelineInvariant (s.inv.pipelines.getD i default) := by
  rcases getD_cases s.inv.pipelines i default with hm | hd
  · exact hs _ hm
  · rw [hd]
    exact pipelineInvariant_of_clean default rfl rfl rfl

theorem clean_getD (orig : Investigation) (h : cleanPipes orig) (i : Nat) :
    (orig.pipelines.getD i default).status = PStatus.pending ∧
    (orig.pipelines.getD i default).results = none ∧
    (orig.pipelines.getD i default).error = none := by
  rcases getD_cases orig.pipelines i default with hm | hd
  · exact h _ hm
  · rw [hd]
    exact ⟨rfl, rfl, rfl⟩

theorem applyEv_pipelineInvariant (orig : Investigation) (h : cleanPipes orig)
    (s : SimState) (hs : ∀ p ∈ s.inv.pipelines, pipelineInvariant p) (ev : Ev) :
    ∀ p ∈ (applyEv orig s ev).inv.pipelines, pipelineInvariant p := by
  cases ev with
  | setRunning i =>
    intro p hp
    rcases List.mem_or_eq_of_mem_set hp with hm | rfl
    · exact hs _ hm
    · exact pinv_runningPipe _ (clean_getD orig h i).2.1 (clean_getD orig h i).2.2
  | startTimer i => exact hs
  | tick i inc =>
    intro p hp
    rcases List.mem_or_eq_of_mem_set hp with hm | rfl
    · exact hs _ hm
    · exact pinv_tickPipe inc _ (pinv_getD s hs i)
  | clearTimer i => exact hs
  | setCompleted i r =>
    intro p hp
    rcases List.mem_or_eq_of_mem_set hp with hm | rfl
    · exact hs _ hm
    · exact pinv_completedPipe _ r (clean_getD orig h i).2.2
  | setError i msg =>
    intro p hp
    rcases List.mem_or_eq_of_mem_set hp with hm | rfl
    · exact hs _ hm
    · exact pinv_errorPipe _ msg (clean_getD orig h i).2.1
  | finalize t => exact hs

/-- C6: in every state an `executePipelines` run reaches from a freshly
created investigation, `completed` pipelines have `progress = 100` and a
result set (and no error message), `error` pipelines have `progress = 0`
and an error message set (and no result); the two kinds of terminal
evidence never coexist, and `completed`/`error` are the only statuses
carrying terminal evidence. -/
theorem c6_terminal_invariants (orig : Investigation) (choice : Nat → StageChoice)
    (tEnd : Rat) (h : cleanPipes orig) :
    ∀ s ∈ executePipelinesStates orig choice tEnd, ∀ p ∈ s.inv.pipelines,
      (p.status = PStatus.completed → p.progress = 100 ∧ p.results.isSome ∧ p.error = none) ∧
      (p.status = PStatus.error → p.progress = 0 ∧ p.error.isSome ∧ p.results = none) ∧
      ¬(p.results.isSome ∧ p.error.isSome) := by
  have hall := mem_scanl_invariant
    (fun st => ∀ p ∈ st.inv.pipelines, pipelineInvariant p)
    (applyEv orig) (execTrace orig choice tEnd) (initState orig)
    (fun p hp => pipelineInvariant_of_clean p (h p hp).1 (h p hp).2.1 (h p hp).2.2)
    (fun y ev hy => applyEv_pipelineInvariant orig h y hy ev)
  intro s hsmem p hp
  have hinv := hall s hsmem p hp
  exact ⟨hinv.1, hinv.2.1, pipelineInvariant_exclusive p hinv⟩

/-- Witness for C6 on the entry-point run's states. -/
theorem c6_terminal_invariants_witness :
    cleanPipes (appOrig "inv-w6" 0) ∧
    (∀ s ∈ executePipelinesStates (appOrig "inv-w6" 0) okChoice 0,
      ∀ p ∈ s.inv.pipelines,
        (p.status = PStatus.completed → p.progress = 100 ∧ p.results.isSome ∧ p.error = none) ∧
        (p.status = PStatus.error → p.progress = 0 ∧ p.error.isSome ∧ p.results = none) ∧
        ¬(p.results.isSome ∧ p.error.isSome)) :=
  ⟨by unfold cleanPipes; decide,
   c6_terminal_invariants (appOrig "inv-w6" 0) okChoice 0 (by unfold cleanPipes; decide)⟩

/-! ### C7: strict sequential execution -/

/-- The pipeline a state holds at index `k`. -/
def pipeAt (s : SimState) (k : Nat) : Pipeline :=
  s.inv.pipelines.getD k default

/-- The pipeline index an event addresses (`finalize` addresses none). -/
def evIndex : Ev → Option Nat
  | .setRunning i => some i
  | .startTimer i => some i
  | .tick i _ => some i
  | .clearTimer i => some i
  | .setCompleted i _ => some i
  | .setError i _ => some i
  | .finalize _ => none

theorem applyEv_length (orig : Investigation) (s : SimState) (ev : Ev) :
    (applyEv orig s ev).inv.pipelines.length = s.inv.pipelines.length := by
  cases ev <;> simp [applyEv, setPipe, finalizeInv]

theorem applyEv_pipeAt_other (orig : Investigation) (s : SimState) (ev : Ev)
    (k : Nat) (h : ∀ i, evIndex ev = some i → i ≠ k) :
    pipeAt (applyEv orig s ev) k = pipeAt s k := by
  cases ev with
  | setRunning i =>
    exact list_getD_set_other _ i k _ _ (h i rfl)
  | startTimer i => rfl
  | tick i inc =>
    exact list_getD_set_other _ i k _ _ (h i rfl)
  | clearTimer i => rfl
  | setCompleted i r =>
    exact list_getD_set_other _ i k _ _ (h i rfl)
  | setError i msg =>
    exact list_getD_set_other _ i k _ _ (h i rfl)
  | finalize t => rfl

theorem evIndex_stage (id : String) (j : Nat) (c : StageChoice) (ev : Ev)
    (hev : ev ∈ stageEvents id j c) : evIndex ev = some j := by
  unfold stageEvents at hev
  rcases List.mem_append.mp hev with h12 | hrest
  · rcases List.mem_append.mp h12 with hab | ht
    · rcases List.mem_cons.mp hab with rfl | hab2
      · rfl
      · rcases List.mem_cons.mp hab2 with rfl | hnil
        · rfl
        · exact absurd hnil (List.not_mem_nil ev)
    · obtain ⟨inc, _, rfl⟩ := List.mem_map.mp ht
      rfl
  · rcases ho : effOutcome id c with r | m <;> rw [ho] at hrest
    · rcases List.mem_cons.mp hrest with rfl | hb
      · rfl
      · rcases List.mem_cons.mp hb with rfl | hnil
        · rfl
        · exact absurd hnil (List.not_mem_nil ev)
    · rcases List.mem_cons.mp hrest with rfl | hnil
      · rfl
      · exact absurd hnil (List.not_mem_nil ev)

/-- "Stages before `j` are terminal, stages after `j` untouched (pending)":
the window invariant the sequential executor maintains while it works on
stage `j`. -/
def seqWindow (orig : Investigation) (j : Nat) (s : SimState) : Prop :=
  s.inv.pipelines.length = orig.pipelines.length ∧
  (∀ k, k < j → (pipeAt s k).status = PStatus.completed ∨
    (pipeAt s k).status = PStatus.error) ∧
  (∀ k, j < k → k < orig.pipelines.length → (pipeAt s k).status = PStatus.pending)

theorem seqWindow_stage_step (orig : Investigation) (id : String) (j : Nat)
    (c : StageChoice) (s : SimState) (ev : Ev) (hev : ev ∈ stageEvents id j c)
    (hw : seqWindow orig j s) : seqWindow orig j (applyEv orig s ev) := by
  have hidx := evIndex_stage id j c ev hev
  have hother : ∀ k, k ≠ j → pipeAt (applyEv orig s ev) k = pipeAt s k := by
    intro k hk
    refine applyEv_pipeAt_other orig s ev k ?_
    intro i hi
    rw [hidx] at hi
    cases hi
    exact fun he => hk (he ▸ rfl)
  refine ⟨(applyEv_length orig s ev).trans hw.1, ?_, ?_⟩
  · intro k hk
    rw [hother k (by omega)]
    exact hw.2.1 k hk
  · intro k hk hkn
    rw [hother k (by omega)]
    exact hw.2.2 k hk hkn

theorem seqWindow_of_inv_eq (orig : Investigation) (j : Nat) (s1 s2 : SimState)
    (h : s1.inv = s2.inv) (hw : seqWindow orig j s2) : seqWindow orig j s1 := by
  unfold seqWindow pipeAt at hw ⊢
  rw [h]
  exact hw

theorem seqWindow_set_terminal (orig : Investigation) (j : Nat) (s : SimState)
    (q : Pipeline)
    (hq : q.status = PStatus.completed ∨ q.status = PStatus.error)
    (hj : j < orig.pipelines.length) (hw : seqWindow orig j s) :
    seqWindow orig (j + 1) (setPipe s j q) := by
  have hjlen : j < s.inv.pipelines.length := by rw [hw.1]; exact hj
  refine ⟨by simp [setPipe, hw.1], ?_, ?_⟩
  · intro k hk
    rcases Nat.lt_or_ge k j with hkj | hkj
    · have heq : pipeAt (setPipe s j q) k = pipeAt s k :=
        list_getD_set_other _ j k _ _ (by omega)
      rw [heq]
      exact hw.2.1 k hkj
    · have hkj2 : k = j := by omega
      subst hkj2
      have heq : pipeAt (setPipe s k q) k = q := list_getD_set_self _ k _ _ hjlen
      rw [heq]
      exact hq
  · intro k hk hkn
    have heq : pipeAt (setPipe s j q) k = pipeAt s k :=
      list_getD_set_other _ j k _ _ (by omega)
    rw [heq]
    exact hw.2.2 k (by omega) hkn

theorem seqWindow_stage_end (orig : Investigation) (choice : Nat → StageChoice)
    (j : Nat) (s : SimState) (hj : j < orig.pipelines.length)
    (hw : seqWindow orig j s) :
    seqWindow orig (j + 1)
      ((stageEvents (pipeIdAt orig j) j (choice j)).foldl (applyEv orig) s) := by
  cases ho : effOutcome (pipeIdAt orig j) (choice j) with
  | ok r =>
    rw [foldl_stage_ok orig (pipeIdAt orig j) j (choice j) r s ho]
    exact seqWindow_set_terminal orig j s _ (Or.inl rfl) hj hw
  | exn m =>
    rw [foldl_stage_exn orig (pipeIdAt orig j) j (choice j) m s ho]
    exact seqWindow_of_inv_eq orig (j + 1) _
      (setPipe s j (errorPipe (orig.pipelines.getD j default) (errText m))) rfl
      (seqWindow_set_terminal orig j s _ (Or.inr rfl) hj hw)

theorem seqWindow_finalize (orig : Investigation) (j : Nat) (s : SimState)
    (t : Rat) (hw : seqWindow orig j s) :
    seqWindow orig j (applyEv orig s (Ev.finalize t)) := hw

theorem c7_aux (orig : Investigation) (choice : Nat → StageChoice) (t : Rat) :
    ∀ (cnt j : Nat) (s : SimState), j + cnt = orig.pipelines.length →
      seqWindow orig j s →
      ∀ x ∈ ((blocksFrom orig choice j cnt) ++ [Ev.finalize t]).scanl (applyEv orig) s,
        ∃ jj, jj ≤ orig.pipelines.length ∧ seqWindow orig jj x := by
  intro cnt
  induction cnt with
  | zero =>
    intro j s hj hw x hx
    refine ⟨j, by omega, ?_⟩
    simp only [blocksFrom, List.nil_append, List.scanl_cons, List.scanl_nil,
      List.singleton_append, List.mem_cons, List.mem_singleton,
      List.not_mem_nil, or_false] at hx
    rcases hx with rfl | rfl
    · exact hw
    · exact seqWindow_finalize orig j s t hw
  | succ n ih =>
    intro j s hj hw x hx
    rw [blocksFrom, List.append_assoc] at hx
    rcases (mem_scanl_append (applyEv orig) _ _ s x).mp hx with hxa | hxb
    · refine ⟨j, by omega, ?_⟩
      exact mem_scanl_invariant_mem (seqWindow orig j) (applyEv orig)
        (stageEvents (pipeIdAt orig j) j (choice j)) s hw
        (fun y ev hev hy =>
          seqWindow_stage_step orig (pipeIdAt orig j) j (choice j) y ev hev hy)
        x hxa
    · exact ih (j + 1) _ (by omega)
        (seqWindow_stage_end orig choice j s (by omega) hw) x hxb

/-- C7: in every reachable state of a run from a fresh investigation, at
most one pipeline is `running` (no two indices are running at once), and a
pipeline `i + 1` that has left `pending` — i.e. has been started — implies
pipeline `i` is already terminal: the executor visits the array strictly in
order. -/
theorem c7_sequential_execution (orig : Investigation)
    (choice : Nat → StageChoice) (tEnd : Rat)
    (hfresh : ∀ p ∈ orig.pipelines, p.status = PStatus.pending) :
    ∀ s ∈ executePipelinesStates orig choice tEnd,
      (∀ i k, i < k → k < orig.pipelines.length →
        (pipeAt s i).status = PStatus.running →
        (pipeAt s k).status ≠ PStatus.running) ∧
      (∀ i, i + 1 < orig.pipelines.length →
        (pipeAt s (i + 1)).status ≠ PStatus.pending →
        (pipeAt s i).status = PStatus.completed ∨
        (pipeAt s i).status = PStatus.error) := by
  intro s hs
  have hw0 : seqWindow orig 0 (initState orig) := by
    refine ⟨rfl, fun k hk => absurd hk (by omega), ?_⟩
    intro k _ hkn
    show (orig.pipelines.getD k default).status = PStatus.pending
    rw [List.getD_eq_getElem _ _ hkn]
    exact hfresh _ (List.getElem_mem hkn)
  have hwin := c7_aux orig choice tEnd orig.pipelines.length 0 (initState orig)
    (by omega) hw0 s hs
  obtain ⟨jj, hjjle, hlen, hterm, hpend⟩ := hwin
  constructor
  · intro i k hik hk hrun
    have hi_lt_n : i < orig.pipelines.length := by omega
    have hi_jj : i = jj := by
      rcases Nat.lt_trichotomy i jj with hlt | heq | hgt
      · rcases hterm i hlt with hc | hc <;>
          exact absurd (hrun.symm.trans hc) (by decide)
      · exact heq
      · exact absurd (hrun.symm.trans (hpend i hgt hi_lt_n)) (by decide)
    intro hkrun
    have hkgt : jj < k := by omega
    exact absurd (hkrun.symm.trans (hpend k hkgt hk)) (by decide)
  · intro i h1 hnp
    have hile : i + 1 ≤ jj := by
      by_contra hgt
      push_neg at hgt
      exact hnp (hpend (i + 1) (by omega) h1)
    exact hterm i (by omega)

/-- Witness for C7 on the entry-point run's states. -/
theorem c7_sequential_execution_witness :
    (∀ p ∈ (appOrig "inv-w7" 0).pipelines, p.status = PStatus.pending) ∧
    (∀ s ∈ executePipelinesStates (appOrig "inv-w7" 0) okChoice 0,
      (∀ i k, i < k → k < (appOrig "inv-w7" 0).pipelines.length →
        (pipeAt s i).status = PStatus.running →
        (pipeAt s k).status ≠ PStatus.running) ∧
      (∀ i, i + 1 < (appOrig "inv-w7" 0).pipelines.length →
        (pipeAt s (i + 1)).status ≠ PStatus.pending →
        (pipeAt s i).status = PStatus.completed ∨
        (pipeAt s i).status = PStatus.error)) :=
  ⟨by decide, c7_sequential_execution (appOrig "inv-w7" 0) okChoice 0 (by decide)⟩

/-! ### C8: progress monotonicity and the 90 ceiling -/

theorem applyEv_progress_bound (orig : Investigation) (s : SimState)
    (hs : ∀ p ∈ s.inv.pipelines, p.status = PStatus.running → p.progress ≤ 90)
    (ev : Ev) :
    ∀ p ∈ (applyEv orig s ev).inv.pipelines,
      p.status = PStatus.running → p.progress ≤ 90 := by
  cases ev with
  | setRunning i =>
    intro p hp
    rcases List.mem_or_eq_of_mem_set hp with hm | rfl
    · exact hs _ hm
    · intro _
      show (0 : Rat) ≤ 90
      norm_num
  | startTimer i => exact hs
  | tick i inc =>
    intro p hp
    rcases List.mem_or_eq_of_mem_set hp with hm | rfl
    · exact hs _ hm
    · intro hrun
      unfold tickPipe
      unfold tickPipe at hrun
      by_cases hg : (s.inv.pipelines.getD i default).status = PStatus.running ∧
          (s.inv.pipelines.getD i default).progress < 90
      · rw [if_pos hg]
        exact min_le_left 90 _
      · rw [if_neg hg]
        rw [if_neg hg] at hrun
        rcases getD_cases s.inv.pipelines i default with hm | hd
        · exact hs _ hm hrun
        · rw [hd] at hrun
          exact absurd hrun (by decide)
  | clearTimer i => exact hs
  | setCompleted i r =>
    intro p hp
    rcases List.mem_or_eq_of_mem_set hp with hm | rfl
    · exact hs _ hm
    · intro hrun
      exact absurd hrun (by simp [completedPipe])
  | setError i msg =>
    intro p hp
    rcases List.mem_or_eq_of_mem_set hp with hm | rfl
    · exact hs _ hm
    · intro hrun
      exact absurd hrun (by simp [errorPipe])
  | finalize t => exact hs

/-- C8: a progress-simulator callback never decreases a running pipeline's
progress (the increment `Math.random() * 15` is nonnegative) and never
lets it exceed 90 (the `Math.min(90, ...)` cap); in every reachable state
of a run from a fresh investigation a running pipeline's progress is at
most 90; and the terminal transitions force progress to 100 on success and
0 on error. -/
theorem c8_progress_bounds (orig : Investigation) (choice : Nat → StageChoice)
    (tEnd : Rat)
    (hfresh : ∀ p ∈ orig.pipelines, p.status = PStatus.pending) :
    (∀ (p : Pipeline) (inc : Rat), 0 ≤ inc → p.status = PStatus.running →
      p.progress ≤ (tickPipe inc p).progress ∧
      (p.progress ≤ 90 → (tickPipe inc p).progress ≤ 90)) ∧
    (∀ s ∈ executePipelinesStates orig choice tEnd, ∀ p ∈ s.inv.pipelines,
      p.status = PStatus.running → p.progress ≤ 90) ∧
    (∀ (b : Pipeline) (r : PipelineResult), (completedPipe b r).progress = 100) ∧
    (∀ (b : Pipeline) (msg : String), (errorPipe b msg).progress = 0) := by
  refine ⟨?_, ?_, fun _ _ => rfl, fun _ _ => rfl⟩
  · intro p inc hinc hrun
    unfold tickPipe
    by_cases hp : p.progress < 90
    · rw [if_pos ⟨hrun, hp⟩]
      constructor
      · exact le_min (le_of_lt hp) (le_add_of_nonneg_right hinc)
      · intro _
        exact min_le_left 90 _
    · rw [if_neg (fun hc => hp hc.2)]
      exact ⟨le_refl _, fun h => h⟩
  · exact mem_scanl_invariant
      (fun st => ∀ p ∈ st.inv.pipelines, p.status = PStatus.running → p.progress ≤ 90)
      (applyEv orig) (execTrace orig choice tEnd) (initState orig)
      (fun p hp hrun => absurd ((hfresh p hp).symm.trans hrun) (by decide))
      (fun y ev hy => applyEv_progress_bound orig y hy ev)

/-- A running pipeline at 50 percent, for the C8 witness. -/
def c8Pipe : Pipeline :=
  { id := "alias-mapping"
    name := "A"
    status := PStatus.running
    progress := 50
    results := none
    error := none }

/-- Witness for C8: a concrete nonnegative increment on a running pipeline,
and the reachable-state bound on the entry-point run. -/
theorem c8_progress_bounds_witness :
    (∀ p ∈ (appOrig "inv-w8" 0).pipelines, p.status = PStatus.pending) ∧
    (0 : Rat) ≤ 7 ∧
    c8Pipe.status = PStatus.running ∧
    (c8Pipe.progress ≤ (tickPipe 7 c8Pipe).progress ∧
     (c8Pipe.progress ≤ 90 → (tickPipe 7 c8Pipe).progress ≤ 90)) ∧
    (∀ s ∈ executePipelinesStates (appOrig "inv-w8" 0) okChoice 0,
      ∀ p ∈ s.inv.pipelines, p.status = PStatus.running → p.progress ≤ 90) :=
  ⟨by decide, by norm_num, rfl,
   (c8_progress_bounds (appOrig "inv-w8" 0) okChoice 0 (by decide)).1
     c8Pipe 7 (by norm_num) rfl,
   (c8_progress_bounds (appOrig "inv-w8" 0) okChoice 0 (by decide)).2.1⟩
